import Mathlib

/-!
Verification of the sandboxed-execution engine of `cute-pandas-mcp-server`.

The Go sources are shallowly embedded: pure path manipulation becomes pure
Lean functions over `String` (implemented on the underlying character lists
so that every definition evaluates by kernel reduction); filesystem contents,
clocks, and the Docker daemon become explicit parameters (association lists,
integer timestamps, oracle records); stateful components (worker pool, image
readiness) become transition systems with an explicit reachability predicate.
Durations and timestamps are modelled as `Int` (nanoseconds in Go); machine
overflow is irrelevant at the scales involved and is not modelled.
-/

deriving instance DecidableEq for Except

namespace GoPath

/-- Split a character list at `'/'` separators (the list-level core of Go's
slash handling); adjacent separators yield empty segments, as in
`strings.Split`. -/
def splitSlash : List Char → List (List Char)
  | [] => [[]]
  | c :: rest =>
    if c = '/' then [] :: splitSlash rest
    else
      match splitSlash rest with
      | [] => [[c]]
      | seg :: segs => (c :: seg) :: segs

/-- One pass of Go `path/filepath.Clean`'s element processing on the segment
list.  `rooted` records whether the original path was absolute; `acc` is the
(reversed) stack of output segments.  Mirrors the standard lexical algorithm:
drop empty and `.` segments, a `..` pops a preceding non-`..` segment, a `..`
at the root is dropped, a `..` below a leading `..` (relative paths only) is
kept. -/
def cleanSegs (rooted : Bool) : List (List Char) → List (List Char) → List (List Char)
  | acc, [] => acc.reverse
  | acc, s :: rest =>
    if s = [] || s = ['.'] then
      cleanSegs rooted acc rest
    else if s = ['.', '.'] then
      match acc with
      | [] => if rooted then cleanSegs rooted [] rest else cleanSegs rooted [['.', '.']] rest
      | a :: as => if a = ['.', '.'] then cleanSegs rooted (s :: a :: as) rest else cleanSegs rooted as rest
    else
      cleanSegs rooted (s :: acc) rest

/-- Re-join segments with `'/'`. -/
def joinSegs : List (List Char) → List Char
  | [] => []
  | [s] => s
  | s :: rest => s ++ '/' :: joinSegs rest

/-- Go `path/filepath.Clean` for Unix paths, on character lists. -/
def cleanL (p : List Char) : List Char :=
  if p = [] then ['.']
  else
    let rooted : Bool := match p with | '/' :: _ => true | _ => false
    let segs := cleanSegs rooted [] (splitSlash p)
    if rooted then '/' :: joinSegs segs
    else if segs = [] then ['.'] else joinSegs segs

/-- Go `path/filepath.Clean` for Unix paths (the only platform the server's
path checks run on in the claims). -/
def clean (path : String) : String := String.mk (cleanL path.data)

/-- Go `path/filepath.Base` for Unix paths: strip trailing slashes, keep the
final element; `""` maps to `"."` and an all-slash path to `"/"`. -/
def base (path : String) : String :=
  if path = "" then "."
  else
    let rev := path.data.reverse.dropWhile (fun c => c = '/')
    if rev = [] then "/"
    else String.mk (rev.takeWhile (fun c => c != '/')).reverse

/-- Go `path/filepath.Join` on two elements: empty leading elements are
skipped, the concatenation is cleaned. -/
def join2 (a b : String) : String :=
  if a = "" then (if b = "" then "" else clean b)
  else String.mk (cleanL (a.data ++ '/' :: b.data))

/-- Go `path/filepath.Join` on three elements. -/
def join3 (a b c : String) : String :=
  if a = "" then join2 b c
  else String.mk (cleanL (a.data ++ '/' :: b.data ++ '/' :: c.data))

/-- Go `path/filepath.IsAbs` for Unix. -/
def isAbs (path : String) : Bool :=
  match path.data with
  | '/' :: _ => true
  | _ => false

/-- Go `path/filepath.Abs`, with the working directory passed explicitly
(the embedding of `os.Getwd`). -/
def abs (cwd path : String) : String :=
  if isAbs path then clean path else join2 cwd path

/-- Go `strings.HasPrefix`. -/
def goHasPre (s pre : String) : Bool := pre.data.isPrefixOf s.data

/-- Occurrence of `ps` as a contiguous run inside a character list; the
list-level core of Go `strings.Contains`. -/
def listContainsSeg (ps : List Char) : List Char → Bool
  | [] => ps.isEmpty
  | c :: rest => ps.isPrefixOf (c :: rest) || listContainsSeg ps rest

/-- Go `strings.Contains s pat`. -/
def goContains (s pat : String) : Bool := listContainsSeg pat.data s.data

end GoPath

namespace ArtifactStore

open GoPath

/-- The fields of `executor.OutputManager` relevant to path resolution.  The
mutex, stop channel and wait group guard concurrency only and carry no data. -/
structure OutputManager where
  baseDir : String

/-- A model filesystem for reads: an association list from path to
regular-file contents.  `os.ReadFile` on a listed path succeeds with the
contents and on any other path fails with not-found. -/
def readFileFS (fs : List (String × String)) (path : String) : Option String :=
  match fs.find? (fun p => p.1 = path) with
  | some p => some p.2
  | none => none

/-- The part of `OutputManager.GetFile` after the reassignment
`filename = filepath.Base(filename)`: join under the execution directory,
re-check with `strings.HasPrefix` on absolute paths, then read. -/
def getFileResolved (cwd : String) (fs : List (String × String)) (m : OutputManager)
    (execID fname : String) : Except String String :=
  if m.baseDir = "" then .error "output directory not configured"
  else
    let filePath := join3 m.baseDir execID fname
    let absPath := abs cwd filePath
    let execDir := join2 m.baseDir execID
    let absExecDir := abs cwd execDir
    if !(goHasPre absPath absExecDir) then .error "path traversal detected"
    else
      match readFileFS fs filePath with
      | some data => .ok data
      | none => .error ("file " ++ fname ++ " not found in execution " ++ execID)

/-- Embedding of `OutputManager.GetFile` (src/executor/output.go:155-187):
the name is first reduced to its base component, then resolved and read. -/
def GetFile (cwd : String) (fs : List (String × String)) (m : OutputManager)
    (execID filename : String) : Except String String :=
  getFileResolved cwd fs m execID (base filename)

end ArtifactStore

namespace Executor

open GoPath

/-- Classification returned by `os.Stat`'s mode for the validation check:
`IsRegular`, a directory, or any other special file. -/
inductive FileKind
  | regular
  | dir
  | other
  deriving DecidableEq

/-- A model of `os.Stat` results: association list from path to file kind;
absent paths are `IsNotExist`.  Other stat failures (permissions, I/O) are
not modelled. -/
def statFS (fs : List (String × FileKind)) (path : String) : Option FileKind :=
  match fs.find? (fun p => p.1 = path) with
  | some p => some p.2
  | none => none

/-- Embedding of `ValidateFilePaths` (src/unnamed/part_002:467-490): for each
path, first reject when the cleaned path contains `".."` anywhere
(`strings.Contains`), then require existence, then require a regular file. -/
def ValidateFilePaths (fs : List (String × FileKind)) : List String → Except String Unit
  | [] => .ok ()
  | f :: rest =>
    if goContains (clean f) ".." then
      .error ("access denied: path traversal detected in " ++ f)
    else
      match statFS fs f with
      | none => .error ("file not found: " ++ f)
      | some k =>
        if k ≠ FileKind.regular then .error ("access denied: " ++ f ++ " is not a regular file")
        else ValidateFilePaths fs rest

/-- The image-readiness fields of `DockerExecutor`, guarded in Go by
`imageReadyMu`.  `imageReady = true` models the spec's `Ready`;
`imageBuildErr = some e` models `Failed(e)`; `⟨false, none⟩` covers
`Unknown`/`Building`. -/
structure ImgState where
  imageReady : Bool
  imageBuildErr : Option String
  deriving DecidableEq

/-- The transitions the one-shot preparation task of `EnsureImageAsync`
(src/unnamed/part_002:205-255) can perform on the readiness fields: from the
initial state it either publishes success (image found locally, pulled, or
built) or publishes the combined failure.  No code path ever clears
`imageReady` or `imageBuildErr`. -/
inductive PrepStep : ImgState → ImgState → Prop
  | publishReady : PrepStep ⟨false, none⟩ ⟨true, none⟩
  | publishFailed (e : String) : PrepStep ⟨false, none⟩ ⟨false, some e⟩

/-- The result struct of an execution (`ExecutionResult`,
src/unnamed/part_002:62-69).  The wall-clock `Duration` field is real time
and is left out of the model. -/
structure ExecutionResult where
  Stdout : String
  Stderr : String
  ExitCode : Int
  Error : String
  deriving DecidableEq

/-- Side effects of one `ExecuteScript` call against the host and the Docker
daemon, counted for the resource-allocation claims. -/
structure ExecEffects where
  validationRejected : Bool
  tempDirsCreated : Nat
  tempDirsRemoved : Nat
  containersCreated : Nat
  containersRemoved : Nat
  killSignals : List String
  deriving DecidableEq

/-- No effect performed yet. -/
def noEffects : ExecEffects := ⟨false, 0, 0, 0, 0, []⟩

/-- Resolution of the `ContainerWait` select: normal exit with a status code,
the execution context's deadline firing first, or a wait error that is not a
deadline. -/
inductive WaitOutcome
  | exited (code : Int)
  | timedOut
  | waitFailed (msg : String)
  deriving DecidableEq

/-- Oracle for the environment-dependent steps of `ExecuteScript`: whether
each host/daemon call succeeds, how the wait resolves, and the log streams
returned by `ContainerLogs`. -/
structure ExecOracle where
  tempDirOk : Bool
  scriptWriteOk : Bool
  outputDirOk : Bool
  createOk : Bool
  startOk : Bool
  wait : WaitOutcome
  logsOk : Bool
  stdout : String
  stderr : String
  deriving DecidableEq

/-- The not-ready message returned while the image is still being prepared. -/
def stillBuildingMsg : String :=
  "Docker image is still being built. Please try again in a minute. (First startup requires building the pandas environment)"

/-- Embedding of `DockerExecutor.ExecuteScript` (src/unnamed/part_002:493-675).
Returns the Go pair `(*ExecutionResult, error)` as an `Except`, together with
the effects performed.  The `defer`red temp-dir and container removals are
folded into every exit path situated after the corresponding creation, exactly
as `defer` guarantees.  Go renders the timeout in the message with `%v`; the
model renders the integer timeout with `toString`. -/
def executeScript (st : ImgState) (fs : List (String × FileKind)) (orc : ExecOracle)
    (files : List String) (timeout defaultTimeout : Int) :
    Except String ExecutionResult × ExecEffects :=
  if st.imageReady = false then
    match st.imageBuildErr with
    | some e => (.ok ⟨"", "", 1, "Docker image build failed: " ++ e⟩, noEffects)
    | none => (.ok ⟨"", "", 1, stillBuildingMsg⟩, noEffects)
  else
    match ValidateFilePaths fs files with
    | .error e => (.ok ⟨"", "", 1, e⟩, { noEffects with validationRejected := true })
    | .ok _ =>
      let t := if timeout ≤ 0 then defaultTimeout else timeout
      if !orc.tempDirOk then (.error "failed to create temp directory", noEffects)
      else
        let effT : ExecEffects := { noEffects with tempDirsCreated := 1, tempDirsRemoved := 1 }
        if !orc.scriptWriteOk then (.error "failed to write script file", effT)
        else if !orc.outputDirOk then (.error "failed to create output directory", effT)
        else if !orc.createOk then (.error "failed to create container", effT)
        else
          let effC : ExecEffects := { effT with containersCreated := 1, containersRemoved := 1 }
          if !orc.startOk then (.error "failed to start container", effC)
          else
            match orc.wait with
            | .timedOut =>
              (.ok ⟨"", "", 124, "execution timeout: script exceeded " ++ toString t⟩,
                { effC with killSignals := ["SIGKILL"] })
            | .waitFailed m => (.error ("container wait error: " ++ m), effC)
            | .exited code =>
              if !orc.logsOk then (.error "failed to get container logs", effC)
              else
                (.ok ⟨orc.stdout, orc.stderr, code,
                  if code ≠ 0 then "script exited with code " ++ toString code else ""⟩, effC)

/-- The per-path rejection condition actually enforced by
`ValidateFilePaths`: the cleaned path contains `".."` as a substring, or the
path is missing, or it is not a regular file. -/
def codeInvalidInput (fs : List (String × FileKind)) (f : String) : Bool :=
  goContains (clean f) ".." ||
    (match statFS fs f with
     | none => true
     | some k => decide (k ≠ FileKind.regular))

/-- The claim's per-path rejection condition, following the spec's words: the
path does not exist, is not a regular file, or its cleaned form contains a
parent-directory traversal segment — a path segment equal to `..`. -/
def specInvalidInput (fs : List (String × FileKind)) (f : String) : Bool :=
  (match statFS fs f with
   | none => true
   | some k => decide (k ≠ FileKind.regular)) ||
    decide (['.', '.'] ∈ splitSlash (clean f).data)

end Executor

namespace WorkerPool

/-- The mutable fields of `workerpool.Pool` (src/tools/tools.go:839-846):
`sem` is the occupancy of the buffered channel `sem` (capacity
`maxWorkers`), i.e. the number of slots currently held; `active` and
`processed` are the counters updated under `mu`. -/
structure PoolState where
  sem : Nat
  active : Int
  processed : Int
  deriving DecidableEq

/-- `NewPool` starts with an empty channel and zero counters. -/
def initPool : PoolState := ⟨0, 0, 0⟩

/-- How the `select` in `Acquire` resolves: the send on `sem` fires, or
`timeoutCtx.Done()` fires — with `timeoutCtx.Err()` being
`context.DeadlineExceeded` (`deadline = true`, the acquire-timeout deadline
elapsed) or the parent context's cancellation (`deadline = false`). -/
inductive SelectRes
  | semSend
  | ctxDone (deadline : Bool)
  deriving DecidableEq

/-- `Acquire`'s possible returns: `granted` is `nil`, `exhausted` is
`ErrPoolExhausted`, `cancelled` is the propagated `timeoutCtx.Err()` of a
cancelled parent context. -/
inductive AcquireOutcome
  | granted
  | exhausted
  | cancelled
  deriving DecidableEq

/-- Embedding of `Pool.Acquire` (src/tools/tools.go:859-876).  The send
branch can only fire while the channel has room (`sem < max`); `none` means
that branch is not enabled.  On a grant the channel occupancy and
`activeCount` both rise by one; on timeout or cancellation the state is
untouched and no slot is granted. -/
def acquire (max : Nat) (s : PoolState) : SelectRes → Option (AcquireOutcome × PoolState)
  | .semSend =>
    if s.sem < max then some (.granted, ⟨s.sem + 1, s.active + 1, s.processed⟩) else none
  | .ctxDone true => some (.exhausted, s)
  | .ctxDone false => some (.cancelled, s)

/-- Embedding of `Pool.TryAcquire` (src/tools/tools.go:893-903): the
non-blocking select takes the send when the channel has room, the default
branch otherwise. -/
def tryAcquire (max : Nat) (s : PoolState) : Bool × PoolState :=
  if s.sem < max then (true, ⟨s.sem + 1, s.active + 1, s.processed⟩) else (false, s)

/-- Embedding of `Pool.Release` (src/tools/tools.go:879-889): receive from
the channel when it is non-empty and update the counters; otherwise the
default branch makes the call a no-op. -/
def release (s : PoolState) : PoolState :=
  if 0 < s.sem then ⟨s.sem - 1, s.active - 1, s.processed + 1⟩ else s

/-- States of a pool of capacity `max` reachable from `NewPool` under any
interleaving of `Acquire`, `TryAcquire` and `Release` calls. -/
inductive Reach (max : Nat) : PoolState → Prop
  | init : Reach max initPool
  | acq {s r o s'} : Reach max s → acquire max s r = some (o, s') → Reach max s'
  | tryA {s} : Reach max s → Reach max (tryAcquire max s).2
  | rel {s} : Reach max s → Reach max (release s)

end WorkerPool

namespace ArtifactStore

/-- The metadata sidecar `.metadata.json` (`ExecutionMetadata`,
src/executor/output.go:23-27), with `time.Time` as integer nanoseconds. -/
structure ExecMetadata where
  executionID : String
  createdAt : Int
  expiresAt : Int
  deriving DecidableEq

/-- One entry of the base directory as the sweep sees it: its name, whether
it is a directory, its filesystem modification time, and the parsed metadata
sidecar when it is readable (`none` models both a missing and an unparsable
`.metadata.json`). -/
structure DirEntry where
  name : String
  isDir : Bool
  modTime : Int
  metadata : Option ExecMetadata
  deriving DecidableEq

/-- The removal decision of one pass of `cleanupExpired`
(src/executor/output.go:279-328): only `exec-`-prefixed directories are
considered; with readable metadata the pass removes when `now` is strictly
after `ExpiresAt`; without it, when the directory's age strictly exceeds the
TTL. -/
def shouldRemove (now ttl : Int) (e : DirEntry) : Bool :=
  e.isDir && GoPath.goHasPre e.name "exec-" &&
    (match e.metadata with
     | some md => decide (md.expiresAt < now)
     | none => decide (ttl < now - e.modTime))

/-- One pass of `cleanupExpired` over the directory listing (removals are
modelled as always succeeding, as the claims assume). -/
def cleanupExpired (now ttl : Int) (entries : List DirEntry) : List DirEntry :=
  entries.filter (fun e => !shouldRemove now ttl e)

/-- The sweep schedule of `StartCleanupLoop` (src/executor/output.go:245-270):
one pass immediately at start time, then one per tick of the fixed interval. -/
def sweepTime (start interval : Int) (n : Nat) : Int := start + n * interval

end ArtifactStore

namespace Storage

/-- `storage.FileInfo` (src/executor/output.go, storage package), with
`time.Time` as integer nanoseconds. -/
structure FileInfo where
  id : String
  name : String
  path : String
  size : Int
  uploadedAt : Int
  expiresAt : Int
  fileRef : String
  deriving DecidableEq

/-- The observable state of a `FileStore`: the files on disk under `baseDir`
(path ↦ contents) and the in-memory index `files` (id ↦ `FileInfo`). -/
structure StoreState where
  disk : List (String × String)
  index : List (String × FileInfo)
  deriving DecidableEq

/-- Lookup in the in-memory index (the Go map access `fs.files[id]`). -/
def lookupIdx (idx : List (String × FileInfo)) (id : String) : Option FileInfo :=
  match idx.find? (fun p => p.1 = id) with
  | some p => some p.2
  | none => none

/-- `os.Remove` of one stored file. -/
def removeDisk (disk : List (String × String)) (path : String) : List (String × String) :=
  disk.filter (fun p => p.1 != path)

/-- The byte-level core of Go `path/filepath.Ext` restricted to a single path
element: the suffix starting at the final dot, or empty. -/
def goExtL (name : List Char) : List Char :=
  let rev := name.reverse
  let pre := rev.takeWhile (fun c => c != '.' && c != '/')
  match rev.drop pre.length with
  | '.' :: _ => '.' :: pre.reverse
  | _ => []

/-- Embedding of `sanitizeFilename` (storage package): take the base name,
replace path separators with `_`, strip null bytes, trim leading dots, and
cap the length at 200 keeping the extension.  Go counts bytes; the model
counts characters, which agree on ASCII names. -/
def sanitizeFilename (name : String) : String :=
  let n1 := (GoPath.base name).data
  let n2 := n1.map (fun c => if c = '/' then '_' else c)
  let n3 := n2.map (fun c => if c = '\\' then '_' else c)
  let n4 := n3.filter (fun c => c != Char.ofNat 0)
  let n5 := n4.dropWhile (fun c => c = '.')
  if 200 < n5.length then
    let ext := goExtL n5
    String.mk (n5.take (200 - ext.length) ++ ext)
  else String.mk n5

/-- Result of `scanner.Scan` as consumed by `Upload`
(src/scanner/clamav.go): clean flag, threat name, and an optional scanner
error. -/
structure ScanResult where
  clean : Bool
  threat : String
  errorMsg : Option String
  deriving DecidableEq

/-- Oracle for the environment-dependent steps of `Upload`: ID generation,
`os.Create`, the copy from the reader, whether a scanner is configured and
enabled, and its verdict. -/
structure UploadOracle where
  idOk : Bool
  newId : String
  createOk : Bool
  writeOk : Bool
  scannerEnabled : Bool
  scan : ScanResult
  deriving DecidableEq

/-- The classified errors `Upload` can return. -/
inductive UploadError
  | idGenFailed
  | createFailed
  | writeFailed
  | tooLarge
  | scannerUnavailable
  | malwareDetected (threat : String)
  deriving DecidableEq

/-- The destination path `Upload` computes: `baseDir/<id>_<sanitized name>`,
with the empty sanitized name falling back to `"file"`. -/
def storedPath (baseDir : String) (orc : UploadOracle) (filename : String) : String :=
  let safeName0 := sanitizeFilename filename
  let safeName := if safeName0 = "" then "file" else safeName0
  GoPath.join2 baseDir (orc.newId ++ "_" ++ safeName)

/-- The success tail of `Upload`: record the `FileInfo` in the index and keep
the file on disk. -/
def uploadAccept (stW : StoreState) (id filename filePath : String)
    (size now ttl : Int) : Except UploadError FileInfo × StoreState :=
  let info : FileInfo := ⟨id, filename, filePath, size, now, now + ttl, "upload://" ++ id⟩
  (.ok info, ⟨stW.disk, (id, info) :: stW.index⟩)

/-- Embedding of `FileStore.Upload` (storage package, src/executor/output.go
second document, lines 586-655).  `content` is what the reader yields;
`io.Copy` through `io.LimitReader(r, maxSize+1)` writes at most `maxSize+1`
bytes and reports that count as `size`.  Every failure after `os.Create`
removes the file before returning. -/
def Upload (st : StoreState) (baseDir : String) (maxSize ttl now : Int)
    (orc : UploadOracle) (filename content : String) :
    Except UploadError FileInfo × StoreState :=
  if !orc.idOk then (.error .idGenFailed, st)
  else
    let id := orc.newId
    let filePath := storedPath baseDir orc filename
    if !orc.createOk then (.error .createFailed, st)
    else
      let written := String.mk (content.data.take (maxSize + 1).toNat)
      let size : Int := min (content.data.length : Int) (maxSize + 1)
      let stW : StoreState := ⟨(filePath, written) :: st.disk, st.index⟩
      if !orc.writeOk then (.error .writeFailed, ⟨removeDisk stW.disk filePath, stW.index⟩)
      else if maxSize < size then (.error .tooLarge, ⟨removeDisk stW.disk filePath, stW.index⟩)
      else if orc.scannerEnabled then
        match orc.scan.errorMsg with
        | some _ => (.error .scannerUnavailable, ⟨removeDisk stW.disk filePath, stW.index⟩)
        | none =>
          if !orc.scan.clean then
            (.error (.malwareDetected orc.scan.threat), ⟨removeDisk stW.disk filePath, stW.index⟩)
          else uploadAccept stW id filename filePath size now ttl
      else uploadAccept stW id filename filePath size now ttl

/-- Embedding of `FileStore.GetPath`: an indexed entry is returned unless
`time.Now().After(ExpiresAt)`, i.e. unless strictly expired. -/
def GetPath (idx : List (String × FileInfo)) (now : Int) (id : String) : Option String :=
  match lookupIdx idx id with
  | some info => if info.expiresAt < now then none else some info.path
  | none => none

/-- Embedding of `FileStore.Get`, with the same expiry check as `GetPath`. -/
def GetInfo (idx : List (String × FileInfo)) (now : Int) (id : String) : Option FileInfo :=
  match lookupIdx idx id with
  | some info => if info.expiresAt < now then none else some info
  | none => none

/-- Embedding of `FileStore.List`: all entries with
`time.Now().Before(ExpiresAt)`, i.e. strictly unexpired. -/
def ListUploads (idx : List (String × FileInfo)) (now : Int) : List FileInfo :=
  (idx.filter (fun p => decide (now < p.2.expiresAt))).map (fun p => p.2)

end Storage

section PathSanity

example : GoPath.clean "../../etc/passwd" = "../../etc/passwd" := by decide
example : GoPath.clean "/a/b/../c" = "/a/c" := by decide
example : GoPath.clean "a/.." = "." := by decide
example : GoPath.clean "/.." = "/" := by decide
example : GoPath.base "../../etc/passwd" = "passwd" := by decide
example : GoPath.base ".." = ".." := by decide
example : GoPath.base "/" = "/" := by decide
example : GoPath.join3 "/store" "exec-1" "passwd" = "/store/exec-1/passwd" := by decide
example : GoPath.goContains "a..b" ".." = true := by decide
example : GoPath.goContains "a/b" ".." = false := by decide
example :
    ArtifactStore.GetFile "/" [("/store/exec-1/passwd", "inside")]
      ⟨"/store"⟩ "exec-1" "../../etc/passwd" = .ok "inside" := by decide
example :
    ArtifactStore.GetFile "/" [] ⟨"/store"⟩ "exec-1" ".." =
      .error "path traversal detected" := by decide

end PathSanity

namespace WorkerPool

/-- Inductive invariant of the pool: the channel occupancy never exceeds the
capacity, and `activeCount` always equals the occupancy. -/
theorem reach_invariant {max : Nat} {s : PoolState} (h : Reach max s) :
    s.sem ≤ max ∧ s.active = (s.sem : Int) := by
  induction h with
  | init => exact ⟨Nat.zero_le _, rfl⟩
  | @acq s r o s' _ heq ih =>
    obtain ⟨ih1, ih2⟩ := ih
    cases r with
    | semSend =>
      rw [acquire] at heq
      split at heq
      · rename_i hlt
        simp only [Option.some.injEq, Prod.mk.injEq] at heq
        obtain ⟨-, rfl⟩ := heq
        refine ⟨by dsimp only; omega, by dsimp only; omega⟩
      · exact Option.noConfusion heq
    | ctxDone b =>
      cases b <;>
        · rw [acquire] at heq
          simp only [Option.some.injEq, Prod.mk.injEq] at heq
          obtain ⟨-, rfl⟩ := heq
          exact ⟨ih1, ih2⟩
  | @tryA s _ ih =>
    obtain ⟨ih1, ih2⟩ := ih
    rw [tryAcquire]
    split
    · refine ⟨by dsimp only; omega, by dsimp only; omega⟩
    · exact ⟨ih1, ih2⟩
  | @rel s _ ih =>
    obtain ⟨ih1, ih2⟩ := ih
    rw [release]
    split
    · refine ⟨by dsimp only; omega, by dsimp only; omega⟩
    · exact ⟨ih1, ih2⟩

end WorkerPool

/-- C3: for a pool of capacity `N = max`, every reachable state holds at most
`N` slots (`activeCount ≤ N`); and while all `N` slots are held the grant
branch of `Acquire`'s select is disabled (the call blocks), so once the
deadline derived from the acquire-timeout elapses the call returns
`ErrPoolExhausted` with the state unchanged. -/
theorem c3_pool_capacity (max : Nat) :
    (∀ s, WorkerPool.Reach max s → s.active ≤ (max : Int)) ∧
    (∀ s, WorkerPool.Reach max s → s.sem = max →
      WorkerPool.acquire max s .semSend = none ∧
      WorkerPool.acquire max s (.ctxDone true) = some (.exhausted, s)) := by
  constructor
  · intro s h
    have hinv := WorkerPool.reach_invariant h
    omega
  · intro s h hfull
    refine ⟨?_, rfl⟩
    rw [WorkerPool.acquire]
    simp [hfull]

/-- C3 witness: capacity 1, one slot granted from the initial state; the pool
is full, a further grant is disabled, and the deadline path returns
`ErrPoolExhausted`. -/
theorem c3_pool_capacity_witness :
    ((⟨1, 1, 0⟩ : WorkerPool.PoolState).active ≤ (1 : Int)) ∧
    WorkerPool.acquire 1 ⟨1, 1, 0⟩ .semSend = none ∧
    WorkerPool.acquire 1 ⟨1, 1, 0⟩ (.ctxDone true) = some (.exhausted, ⟨1, 1, 0⟩) := by
  have hstep : WorkerPool.acquire 1 WorkerPool.initPool .semSend =
      some (.granted, ⟨1, 1, 0⟩) := by decide
  have hr : WorkerPool.Reach 1 ⟨1, 1, 0⟩ := WorkerPool.Reach.acq WorkerPool.Reach.init hstep
  have h := c3_pool_capacity 1
  exact ⟨h.1 _ hr, (h.2 _ hr rfl).1, (h.2 _ hr rfl).2⟩

/-- C1 counterexample: with a file legitimately named `passwd` inside the
execution directory `exec-1`, `GetFile(exec-1, "../../etc/passwd")` is not
rejected with an error — the name is reduced to `passwd` and the call
returns that inside file's contents. -/
theorem c1_counterexample :
    ArtifactStore.GetFile "/" [("/store/exec-1/passwd", "inside")] ⟨"/store"⟩
      "exec-1" "../../etc/passwd" = .ok "inside" := by decide

/-- C1 (amended): `GetFile` reduces the name to its base component, so for
every `id` (valid or not) and every filesystem, `GetFile(id,
"../../etc/passwd")` behaves exactly like `GetFile(id, "passwd")`; the
traversal is neutralized rather than rejected, and whenever the call
succeeds, the contents returned are those of the path
`Join(baseDir, id, "passwd")` inside the execution directory of `id`, never
of a file outside it. -/
theorem c1_getFile_traversal_neutralized (cwd : String) (fs : List (String × String))
    (m : ArtifactStore.OutputManager) (execID : String) :
    ArtifactStore.GetFile cwd fs m execID "../../etc/passwd" =
      ArtifactStore.GetFile cwd fs m execID "passwd" ∧
    ∀ c, ArtifactStore.GetFile cwd fs m execID "../../etc/passwd" = .ok c →
      ArtifactStore.readFileFS fs (GoPath.join3 m.baseDir execID "passwd") = some c := by
  have hb : GoPath.base "../../etc/passwd" = GoPath.base "passwd" := by decide
  constructor
  · rw [ArtifactStore.GetFile, ArtifactStore.GetFile, hb]
  · intro c h
    rw [ArtifactStore.GetFile] at h
    have hb2 : GoPath.base "../../etc/passwd" = "passwd" := by decide
    rw [hb2] at h
    simp only [ArtifactStore.getFileResolved] at h
    split at h
    · exact Except.noConfusion h
    · split at h
      · exact Except.noConfusion h
      · split at h
        · rename_i data hdata
          obtain rfl : data = c := Except.ok.inj h
          exact hdata
        · exact Except.noConfusion h

/-- C1 witness: the amended theorem applied at a concrete store, execution id
and filesystem. -/
theorem c1_getFile_traversal_neutralized_witness :
    ArtifactStore.readFileFS [("/store/exec-1/passwd", "inside")]
      (GoPath.join3 "/store" "exec-1" "passwd") = some "inside" :=
  (c1_getFile_traversal_neutralized "/" [("/store/exec-1/passwd", "inside")]
    ⟨"/store"⟩ "exec-1").2 "inside" (by decide)

/-- C5: the readiness fields are monotonic along every sequence of
preparation-task transitions — `Ready` is never left and a recorded build
failure is never cleared; moreover a failed state has no outgoing transition
at all (the task is one-shot), and every `ExecuteScript` call in a failed
state returns a structured result surfacing that same build failure. -/
theorem c5_image_state_monotonic :
    (∀ s s' : Executor.ImgState, Relation.ReflTransGen Executor.PrepStep s s' →
      (s.imageReady = true → s'.imageReady = true) ∧
      (∀ e, s.imageBuildErr = some e → s'.imageBuildErr = some e)) ∧
    (∀ (e : String) (s' : Executor.ImgState),
      Relation.ReflTransGen Executor.PrepStep ⟨false, some e⟩ s' → s' = ⟨false, some e⟩) ∧
    (∀ (e : String) (fs : List (String × Executor.FileKind)) (orc : Executor.ExecOracle)
        (files : List String) (timeout dflt : Int),
      (Executor.executeScript ⟨false, some e⟩ fs orc files timeout dflt).1 =
        .ok ⟨"", "", 1, "Docker image build failed: " ++ e⟩) := by
  refine ⟨?_, ?_, ?_⟩
  · intro s s' h
    induction h with
    | refl => exact ⟨fun h => h, fun _ h => h⟩
    | tail hst step ih =>
      cases step with
      | publishReady =>
        refine ⟨fun _ => rfl, fun e he => Option.noConfusion (ih.2 e he)⟩
      | publishFailed e2 =>
        exact ⟨fun hr => Bool.noConfusion (ih.1 hr), fun e he => Option.noConfusion (ih.2 e he)⟩
  · intro e s' h
    induction h with
    | refl => rfl
    | tail hst step ih =>
      cases step <;>
        exact Option.noConfusion (congrArg Executor.ImgState.imageBuildErr ih)
  · intro e fs orc files timeout dflt
    rfl

/-- C5 witness: the monotonicity and stickiness conjuncts applied at the
failed state `⟨false, some "boom"⟩`, and the concrete result of a subsequent
`ExecuteScript` call in that state. -/
theorem c5_image_state_monotonic_witness :
    ((⟨false, some "boom"⟩ : Executor.ImgState).imageBuildErr = some "boom") ∧
    ((⟨false, some "boom"⟩ : Executor.ImgState) = (⟨false, some "boom"⟩ : Executor.ImgState)) ∧
    (Executor.executeScript ⟨false, some "boom"⟩ []
        ⟨true, true, true, true, true, .exited 0, true, "", ""⟩ [] 5 30).1 =
      .ok ⟨"", "", 1, "Docker image build failed: " ++ "boom"⟩ := by
  have h := c5_image_state_monotonic
  exact ⟨(h.1 ⟨false, some "boom"⟩ ⟨false, some "boom"⟩ Relation.ReflTransGen.refl).2 "boom" rfl,
    h.2.1 "boom" ⟨false, some "boom"⟩ Relation.ReflTransGen.refl,
    h.2.2 "boom" [] ⟨true, true, true, true, true, .exited 0, true, "", ""⟩ [] 5 30⟩

namespace Executor

/-- `ValidateFilePaths` fails exactly when some declared path trips the
per-path condition the code enforces (substring `".."` in the cleaned path,
missing file, or non-regular file). -/
theorem validateFilePaths_error_iff (fs : List (String × FileKind)) (files : List String) :
    (∃ e, ValidateFilePaths fs files = .error e) ↔
      ∃ f ∈ files, codeInvalidInput fs f = true := by
  induction files with
  | nil => simp [ValidateFilePaths]
  | cons f rest ih =>
    simp only [ValidateFilePaths]
    by_cases hc : GoPath.goContains (GoPath.clean f) ".." = true
    · rw [if_pos hc]
      constructor
      · exact fun _ => ⟨f, List.mem_cons_self f rest, by simp [codeInvalidInput, hc]⟩
      · exact fun _ => ⟨"access denied: path traversal detected in " ++ f, rfl⟩
    · rw [if_neg hc]
      rw [Bool.not_eq_true] at hc
      cases hs : statFS fs f with
      | none =>
        constructor
        · exact fun _ => ⟨f, List.mem_cons_self f rest, by simp [codeInvalidInput, hc, hs]⟩
        · exact fun _ => ⟨"file not found: " ++ f, rfl⟩
      | some k =>
        dsimp only
        by_cases hk : k = FileKind.regular
        · subst hk
          rw [if_neg (by simp)]
          rw [ih]
          constructor
          · rintro ⟨g, hg, hcode⟩
            exact ⟨g, List.mem_cons_of_mem f hg, hcode⟩
          · rintro ⟨g, hg, hcode⟩
            rcases List.mem_cons.mp hg with rfl | hg2
            · exfalso
              simp [codeInvalidInput, hc, hs] at hcode
            · exact ⟨g, hg2, hcode⟩
        · rw [if_pos hk]
          constructor
          · exact fun _ => ⟨f, List.mem_cons_self f rest, by simp [codeInvalidInput, hc, hs, hk]⟩
          · exact fun _ => ⟨"access denied: " ++ f ++ " is not a regular file", rfl⟩

end Executor

/-- C2 counterexample: the file `a..b` exists and is a regular file, and its
cleaned form `a..b` contains no parent-directory traversal *segment*, yet
`ExecuteScript` on a ready image rejects it with an input-validation failure
(the code tests for `".."` as a substring, not as a segment). -/
theorem c2_counterexample :
    (Executor.executeScript ⟨true, none⟩ [("a..b", Executor.FileKind.regular)]
        ⟨true, true, true, true, true, .exited 0, true, "", ""⟩ ["a..b"] 5 30).1 =
      .ok ⟨"", "", 1, "access denied: path traversal detected in a..b"⟩ ∧
    Executor.specInvalidInput [("a..b", Executor.FileKind.regular)] "a..b" = false := by
  decide

/-- C2 (amended): for a ready image, `ExecuteScript` returns an
input-validation failure exactly when some declared input path does not
exist, is not a regular file, or its cleaned form contains `".."` as a
substring (which includes, but is not limited to, parent-directory traversal
segments); and any such rejection is returned inside the result with exit
code 1 while creating no ephemeral workspace and no container. -/
theorem c2_validation_gate (st : Executor.ImgState) (fs : List (String × Executor.FileKind))
    (orc : Executor.ExecOracle) (files : List String) (timeout dflt : Int)
    (hready : st.imageReady = true) :
    ((Executor.executeScript st fs orc files timeout dflt).2.validationRejected = true ↔
      ∃ f ∈ files, Executor.codeInvalidInput fs f = true) ∧
    (∀ e, Executor.ValidateFilePaths fs files = .error e →
      Executor.executeScript st fs orc files timeout dflt =
        (.ok ⟨"", "", 1, e⟩, ⟨true, 0, 0, 0, 0, []⟩)) := by
  have hnot : ¬ st.imageReady = false := by simp [hready]
  constructor
  · rw [← Executor.validateFilePaths_error_iff]
    cases hv : Executor.ValidateFilePaths fs files with
    | error e =>
      simp only [Executor.executeScript, if_neg hnot, hv]
      constructor
      · intro _
        exact ⟨e, rfl⟩
      · intro _
        trivial
    | ok u =>
      cases u
      constructor
      · intro hrej
        exfalso
        revert hrej
        simp only [Executor.executeScript, if_neg hnot, hv]
        (repeat' split) <;> simp [Executor.noEffects]
      · rintro ⟨e, he⟩
        exact Except.noConfusion he
  · intro e he
    simp only [Executor.executeScript, if_neg hnot, he]
    rfl

/-- C2 witness: a traversal path on a ready image is rejected inside the
result with no workspace and no container created. -/
theorem c2_validation_gate_witness :
    Executor.executeScript ⟨true, none⟩ []
        ⟨true, true, true, true, true, .exited 0, true, "", ""⟩ ["../x"] 5 30 =
      (.ok ⟨"", "", 1, "access denied: path traversal detected in ../x"⟩,
        ⟨true, 0, 0, 0, 0, []⟩) :=
  (c2_validation_gate ⟨true, none⟩ [] ⟨true, true, true, true, true, .exited 0, true, "", ""⟩
    ["../x"] 5 30 rfl).2 "access denied: path traversal detected in ../x" (by decide)

namespace ArtifactStore

/-- Bool/Prop bridge for the sweep's removal decision. -/
theorem shouldRemove_iff (now ttl : Int) (e : DirEntry) :
    shouldRemove now ttl e = true ↔
      e.isDir = true ∧ GoPath.goHasPre e.name "exec-" = true ∧
        ((∃ md, e.metadata = some md ∧ md.expiresAt < now) ∨
         (e.metadata = none ∧ ttl < now - e.modTime)) := by
  rw [shouldRemove]
  cases hm : e.metadata with
  | none => simp [and_assoc]
  | some md => simp [and_assoc]

end ArtifactStore

/-- C7: one pass of the background sweep removes an `exec-`-prefixed
execution directory exactly when its expiry has passed — with readable
metadata, when the pass time is strictly after the recorded `ExpiresAt`;
without readable metadata, when its modification time is more than the TTL
ago (such entries are processed, not rejected); the sweep schedule has its
first pass immediately at loop start and subsequent passes one fixed
interval apart, so a directory whose metadata was created at loop start with
a positive TTL survives the immediate pass. -/
theorem c7_sweep_expiry (now ttl start interval : Int)
    (entries : List ArtifactStore.DirEntry) (e : ArtifactStore.DirEntry)
    (he : e ∈ entries) :
    (e ∉ ArtifactStore.cleanupExpired now ttl entries ↔
      e.isDir = true ∧ GoPath.goHasPre e.name "exec-" = true ∧
        ((∃ md, e.metadata = some md ∧ md.expiresAt < now) ∨
         (e.metadata = none ∧ ttl < now - e.modTime))) ∧
    ArtifactStore.sweepTime start interval 0 = start ∧
    (∀ n : Nat, ArtifactStore.sweepTime start interval (n + 1) =
      ArtifactStore.sweepTime start interval n + interval) ∧
    (∀ id ca, e.metadata = some ⟨id, ca, start + ttl⟩ → 0 < ttl →
      e ∈ ArtifactStore.cleanupExpired start ttl entries) := by
  refine ⟨?_, ?_, ?_, ?_⟩
  · rw [← ArtifactStore.shouldRemove_iff now ttl e]
    constructor
    · intro hnot
      by_cases hrem : ArtifactStore.shouldRemove now ttl e = true
      · exact hrem
      · rw [Bool.not_eq_true] at hrem
        exact absurd (List.mem_filter.mpr ⟨he, by simp [hrem]⟩) hnot
    · intro hcond hmem
      have h2 := (List.mem_filter.mp hmem).2
      rw [hcond] at h2
      simp at h2
  · rw [ArtifactStore.sweepTime]
    simp
  · intro n
    rw [ArtifactStore.sweepTime, ArtifactStore.sweepTime]
    push_cast
    ring
  · intro id ca hmd httl
    rw [ArtifactStore.cleanupExpired]
    refine List.mem_filter.mpr ⟨he, ?_⟩
    have hsr : ArtifactStore.shouldRemove start ttl e = false := by
      rw [ArtifactStore.shouldRemove, hmd]
      have hlt : ¬ (start + ttl < start) := by omega
      simp [hlt]
    simp [hsr]

/-- C7 witness: at the immediate sweep pass (time = loop start), a directory
created at that instant with TTL 100 survives, and the first scheduled pass
time is the start time itself. -/
theorem c7_sweep_expiry_witness :
    ((⟨"exec-a", true, 0, some ⟨"exec-a", 0, 100⟩⟩ : ArtifactStore.DirEntry) ∈
      ArtifactStore.cleanupExpired 0 100
        [⟨"exec-a", true, 0, some ⟨"exec-a", 0, 100⟩⟩]) ∧
    ArtifactStore.sweepTime 0 60 0 = 0 := by
  have h := c7_sweep_expiry 0 100 0 60
    [⟨"exec-a", true, 0, some ⟨"exec-a", 0, 100⟩⟩]
    ⟨"exec-a", true, 0, some ⟨"exec-a", 0, 100⟩⟩
    (List.mem_cons_self _ _)
  exact ⟨h.2.2.2 "exec-a" 0 (by decide) (by decide), h.2.1⟩

namespace Storage

/-- The file just written at `path` is gone after `os.Remove(path)`. -/
theorem not_mem_removeDisk (disk : List (String × String)) (path c : String) :
    (path, c) ∉ removeDisk disk path := by
  intro hmem
  have h2 := (List.mem_filter.mp hmem).2
  simp at h2

/-- Removing `path` right after creating it cancels the creation. -/
theorem removeDisk_cons_self (disk : List (String × String)) (path w : String) :
    removeDisk ((path, w) :: disk) path = removeDisk disk path := by
  rw [removeDisk, removeDisk, List.filter_cons]
  simp

/-- Removing a path that was not on disk leaves the disk unchanged. -/
theorem removeDisk_fresh (disk : List (String × String)) (path : String)
    (h : ∀ c, (path, c) ∉ disk) : removeDisk disk path = disk := by
  rw [removeDisk]
  apply List.filter_eq_self.mpr
  intro a ha
  simp only [bne_iff_ne, ne_eq]
  intro hq
  subst hq
  exact h a.2 (by rw [Prod.mk.eta]; exact ha)

end Storage

/-- C9: a failed `Upload` leaves the store's observable state unchanged —
the in-memory index is untouched and, for every failure after the
destination file was created (write error, size overflow, scanner
unavailable, malware detected), the destination file is removed, so a disk
that did not already contain that path is exactly as before; a successful
`Upload` records an index entry precisely for the fully written,
size-conforming, scan-passing file. -/
theorem c9_upload_atomic (st : Storage.StoreState) (baseDir : String) (maxSize ttl now : Int)
    (orc : Storage.UploadOracle) (filename content : String) :
    (∀ err st', Storage.Upload st baseDir maxSize ttl now orc filename content =
        (.error err, st') →
      st'.index = st.index ∧
      (err ≠ .idGenFailed → err ≠ .createFailed →
        (∀ c, (Storage.storedPath baseDir orc filename, c) ∉ st'.disk) ∧
        ((∀ c, (Storage.storedPath baseDir orc filename, c) ∉ st.disk) →
          st'.disk = st.disk))) ∧
    (∀ info st', Storage.Upload st baseDir maxSize ttl now orc filename content =
        (.ok info, st') →
      info.size ≤ maxSize ∧
      (orc.scannerEnabled = true → orc.scan.errorMsg = none ∧ orc.scan.clean = true) ∧
      st'.index = (info.id, info) :: st.index ∧
      st'.disk = (info.path, content) :: st.disk) := by
  constructor
  · intro err st' h
    simp only [Storage.Upload, Storage.uploadAccept] at h
    by_cases hid : orc.idOk = true
    case neg =>
      rw [Bool.not_eq_true] at hid
      rw [if_pos (by simp [hid])] at h
      injection h with h1 h2
      subst h2
      injection h1 with h0
      subst h0
      exact ⟨rfl, fun hne _ => absurd rfl hne⟩
    case pos =>
      rw [if_neg (by simp [hid])] at h
      by_cases hcr : orc.createOk = true
      case neg =>
        rw [Bool.not_eq_true] at hcr
        rw [if_pos (by simp [hcr])] at h
        injection h with h1 h2
        subst h2
        injection h1 with h0
        subst h0
        exact ⟨rfl, fun _ hne => absurd rfl hne⟩
      case pos =>
        rw [if_neg (by simp [hcr])] at h
        by_cases hwr : orc.writeOk = true
        case neg =>
          rw [Bool.not_eq_true] at hwr
          rw [if_pos (by simp [hwr])] at h
          injection h with h1 h2
          subst h2
          injection h1 with h0
          subst h0
          refine ⟨rfl, fun _ _ => ⟨fun c => Storage.not_mem_removeDisk _ _ c, fun hfresh => ?_⟩⟩
          rw [Storage.removeDisk_cons_self, Storage.removeDisk_fresh st.disk _ hfresh]
        case pos =>
          rw [if_neg (by simp [hwr])] at h
          by_cases hsz : maxSize < min (content.data.length : Int) (maxSize + 1)
          case pos =>
            rw [if_pos hsz] at h
            injection h with h1 h2
            subst h2
            injection h1 with h0
            subst h0
            refine ⟨rfl, fun _ _ => ⟨fun c => Storage.not_mem_removeDisk _ _ c, fun hfresh => ?_⟩⟩
            rw [Storage.removeDisk_cons_self, Storage.removeDisk_fresh st.disk _ hfresh]
          case neg =>
            rw [if_neg hsz] at h
            by_cases hsc : orc.scannerEnabled = true
            case pos =>
              rw [if_pos hsc] at h
              cases hem : orc.scan.errorMsg with
              | some m =>
                rw [hem] at h
                injection h with h1 h2
                subst h2
                injection h1 with h0
                subst h0
                refine ⟨rfl, fun _ _ =>
                  ⟨fun c => Storage.not_mem_removeDisk _ _ c, fun hfresh => ?_⟩⟩
                rw [Storage.removeDisk_cons_self, Storage.removeDisk_fresh st.disk _ hfresh]
              | none =>
                rw [hem] at h
                by_cases hcl : orc.scan.clean = true
                case pos =>
                  rw [if_neg (by simp [hcl])] at h
                  simp at h
                case neg =>
                  rw [Bool.not_eq_true] at hcl
                  rw [if_pos (by simp [hcl])] at h
                  injection h with h1 h2
                  subst h2
                  injection h1 with h0
                  subst h0
                  refine ⟨rfl, fun _ _ =>
                    ⟨fun c => Storage.not_mem_removeDisk _ _ c, fun hfresh => ?_⟩⟩
                  rw [Storage.removeDisk_cons_self, Storage.removeDisk_fresh st.disk _ hfresh]
            case neg =>
              rw [if_neg hsc] at h
              simp at h
  · intro info st' h
    simp only [Storage.Upload, Storage.uploadAccept] at h
    by_cases hid : orc.idOk = true
    case neg =>
      rw [Bool.not_eq_true] at hid
      rw [if_pos (by simp [hid])] at h
      simp at h
    case pos =>
      rw [if_neg (by simp [hid])] at h
      by_cases hcr : orc.createOk = true
      case neg =>
        rw [Bool.not_eq_true] at hcr
        rw [if_pos (by simp [hcr])] at h
        simp at h
      case pos =>
        rw [if_neg (by simp [hcr])] at h
        by_cases hwr : orc.writeOk = true
        case neg =>
          rw [Bool.not_eq_true] at hwr
          rw [if_pos (by simp [hwr])] at h
          simp at h
        case pos =>
          rw [if_neg (by simp [hwr])] at h
          by_cases hsz : maxSize < min (content.data.length : Int) (maxSize + 1)
          case pos =>
            rw [if_pos hsz] at h
            simp at h
          case neg =>
            rw [if_neg hsz] at h
            have hlen : content.data.length ≤ (maxSize + 1).toNat := by omega
            have hwcont : String.mk (content.data.take (maxSize + 1).toNat) = content := by
              rw [List.take_of_length_le hlen]
            by_cases hsc : orc.scannerEnabled = true
            case pos =>
              rw [if_pos hsc] at h
              cases hem : orc.scan.errorMsg with
              | some m =>
                rw [hem] at h
                simp at h
              | none =>
                rw [hem] at h
                by_cases hcl : orc.scan.clean = true
                case pos =>
                  rw [if_neg (by simp [hcl])] at h
                  injection h with h1 h2
                  subst h2
                  injection h1 with h0
                  subst h0
                  have hsize : min (content.data.length : Int) (maxSize + 1) ≤ maxSize := by
                    omega
                  refine ⟨hsize, fun _ => ⟨rfl, hcl⟩, rfl, ?_⟩
                  rw [hwcont]
                case neg =>
                  rw [Bool.not_eq_true] at hcl
                  rw [if_pos (by simp [hcl])] at h
                  simp at h
            case neg =>
              rw [if_neg hsc] at h
              injection h with h1 h2
              subst h2
              injection h1 with h0
              subst h0
              have hsize : min (content.data.length : Int) (maxSize + 1) ≤ maxSize := by
                omega
              refine ⟨hsize, fun hsc' => absurd hsc' hsc, rfl, ?_⟩
              rw [hwcont]

/-- C9 witness: an upload into an empty store that fails because the scanner
is unavailable leaves the index empty and the disk exactly as before. -/
theorem c9_upload_atomic_witness :
    (Storage.Upload ⟨[], []⟩ "/up" 10 100 0
        ⟨true, "id1", true, true, true, ⟨true, "", some "down"⟩⟩ "a.csv" "abc").2.index =
      [] ∧
    (Storage.Upload ⟨[], []⟩ "/up" 10 100 0
        ⟨true, "id1", true, true, true, ⟨true, "", some "down"⟩⟩ "a.csv" "abc").2.disk =
      [] := by
  have h := (c9_upload_atomic ⟨[], []⟩ "/up" 10 100 0
      ⟨true, "id1", true, true, true, ⟨true, "", some "down"⟩⟩ "a.csv" "abc").1
    Storage.UploadError.scannerUnavailable
    (Storage.Upload ⟨[], []⟩ "/up" 10 100 0
      ⟨true, "id1", true, true, true, ⟨true, "", some "down"⟩⟩ "a.csv" "abc").2
    (by decide)
  refine ⟨h.1, ?_⟩
  exact (h.2 (by decide) (by decide)).2 (fun c => by simp)

/-- C10: `GetPath` and `Get` never return an entry whose `ExpiresAt` is in
the past, even before the cleanup goroutine removes it, and `List` returns
exactly the indexed entries whose `ExpiresAt` is still in the future. -/
theorem c10_expired_invisible (idx : List (String × Storage.FileInfo)) (now : Int)
    (id : String) :
    (∀ info, Storage.lookupIdx idx id = some info → info.expiresAt < now →
      Storage.GetPath idx now id = none ∧ Storage.GetInfo idx now id = none) ∧
    (∀ info, info ∈ Storage.ListUploads idx now ↔
      ∃ i, (i, info) ∈ idx ∧ now < info.expiresAt) := by
  constructor
  · intro info hl hexp
    constructor
    · simp only [Storage.GetPath, hl]
      rw [if_pos hexp]
    · simp only [Storage.GetInfo, hl]
      rw [if_pos hexp]
  · intro info
    rw [Storage.ListUploads]
    constructor
    · intro hmem
      obtain ⟨p, hp, rfl⟩ := List.mem_map.mp hmem
      obtain ⟨hpidx, hpred⟩ := List.mem_filter.mp hp
      refine ⟨p.1, ?_, of_decide_eq_true hpred⟩
      rw [Prod.mk.eta]
      exact hpidx
    · rintro ⟨i, hpair, hlt⟩
      exact List.mem_map.mpr ⟨(i, info), List.mem_filter.mpr ⟨hpair, decide_eq_true hlt⟩, rfl⟩

/-- C10 witness: an entry expired at time 5 is invisible to `GetPath` and
`Get` at time 10 while still sitting in the index. -/
theorem c10_expired_invisible_witness :
    Storage.GetPath [("a", ⟨"a", "f.csv", "/up/a_f.csv", 1, 0, 5, "upload://a"⟩)] 10 "a" =
      none ∧
    Storage.GetInfo [("a", ⟨"a", "f.csv", "/up/a_f.csv", 1, 0, 5, "upload://a"⟩)] 10 "a" =
      none :=
  (c10_expired_invisible [("a", ⟨"a", "f.csv", "/up/a_f.csv", 1, 0, 5, "upload://a"⟩)]
    10 "a").1 ⟨"a", "f.csv", "/up/a_f.csv", 1, 0, 5, "upload://a"⟩ (by decide) (by decide)

/-- C4: when the image is ready, validation passes, provisioning succeeds and
the wait resolves by the execution deadline, `ExecuteScript` kills the
container with SIGKILL and returns — as a structured result, not an error —
exit code 124 with the `ExecutionTimeout` classification message, having
also removed the container and the ephemeral workspace. -/
theorem c4_timeout_kill_124 (st : Executor.ImgState) (fs : List (String × Executor.FileKind))
    (orc : Executor.ExecOracle) (files : List String) (timeout dflt : Int)
    (hready : st.imageReady = true)
    (hv : Executor.ValidateFilePaths fs files = .ok ())
    (h1 : orc.tempDirOk = true) (h2 : orc.scriptWriteOk = true)
    (h3 : orc.outputDirOk = true) (h4 : orc.createOk = true) (h5 : orc.startOk = true)
    (hw : orc.wait = .timedOut) (ht : 0 < timeout) :
    Executor.executeScript st fs orc files timeout dflt =
      (.ok ⟨"", "", 124, "execution timeout: script exceeded " ++ toString timeout⟩,
        ⟨false, 1, 1, 1, 1, ["SIGKILL"]⟩) := by
  have hle : ¬ timeout ≤ 0 := by omega
  simp [Executor.executeScript, hready, hv, h1, h2, h3, h4, h5, hw, hle,
    Executor.noEffects]

/-- C4 witness: a concrete timed-out execution with a 5-unit timeout. -/
theorem c4_timeout_kill_124_witness :
    Executor.executeScript ⟨true, none⟩ []
        ⟨true, true, true, true, true, .timedOut, true, "", ""⟩ [] 5 30 =
      (.ok ⟨"", "", 124, "execution timeout: script exceeded " ++ toString (5 : Int)⟩,
        ⟨false, 1, 1, 1, 1, ["SIGKILL"]⟩) :=
  c4_timeout_kill_124 ⟨true, none⟩ []
    ⟨true, true, true, true, true, .timedOut, true, "", ""⟩ [] 5 30
    rfl rfl rfl rfl rfl rfl rfl rfl (by decide)

/-- C6: in every reachable pool state the active count is non-negative;
`Release` on a pool holding no slots leaves the whole state (active count,
lifetime-processed counter, semaphore) unchanged; and a `Release` matching a
held slot decrements the active count and increments the processed counter. -/
theorem c6_release_no_underflow :
    (∀ (max : Nat) (s : WorkerPool.PoolState), WorkerPool.Reach max s → 0 ≤ s.active) ∧
    (∀ s : WorkerPool.PoolState, s.sem = 0 → WorkerPool.release s = s) ∧
    (∀ s : WorkerPool.PoolState, 0 < s.sem →
      WorkerPool.release s = ⟨s.sem - 1, s.active - 1, s.processed + 1⟩) := by
  refine ⟨?_, ?_, ?_⟩
  · intro max s h
    have hinv := WorkerPool.reach_invariant h
    omega
  · intro s h
    rw [WorkerPool.release]
    simp [h]
  · intro s h
    rw [WorkerPool.release]
    simp [h]

/-- C6 witness: the empty pool has non-negative active count, releasing with
no held slot changes nothing, and releasing one of two held slots decrements
active and increments processed. -/
theorem c6_release_no_underflow_witness :
    (0 : Int) ≤ WorkerPool.initPool.active ∧
    WorkerPool.release ⟨0, 0, 3⟩ = ⟨0, 0, 3⟩ ∧
    WorkerPool.release ⟨2, 2, 0⟩ = ⟨1, 1, 1⟩ := by
  have h := c6_release_no_underflow
  refine ⟨h.1 4 _ WorkerPool.Reach.init, h.2.1 ⟨0, 0, 3⟩ rfl, ?_⟩
  have h3 := h.2.2 ⟨2, 2, 0⟩ (by decide)
  simpa using h3

/-- C8: `Acquire` returns `ErrPoolExhausted` exactly when the select resolved
through the deadline of the timeout context (`context.DeadlineExceeded`);
when the caller's context is cancelled first, it returns the distinct
cancellation error with no slot granted and the pool state untouched. -/
theorem c8_acquire_cancel_distinct :
    (∀ (max : Nat) (s s' : WorkerPool.PoolState) (r : WorkerPool.SelectRes)
        (o : WorkerPool.AcquireOutcome),
      WorkerPool.acquire max s r = some (o, s') →
      (o = .exhausted ↔ r = .ctxDone true)) ∧
    (∀ (max : Nat) (s : WorkerPool.PoolState),
      WorkerPool.acquire max s (.ctxDone false) = some (.cancelled, s)) ∧
    WorkerPool.AcquireOutcome.cancelled ≠ WorkerPool.AcquireOutcome.exhausted := by
  refine ⟨?_, fun _ _ => rfl, by simp⟩
  intro max s s' r o heq
  cases r with
  | semSend =>
    rw [WorkerPool.acquire] at heq
    split at heq
    · simp only [Option.some.injEq, Prod.mk.injEq] at heq
      obtain ⟨ho, -⟩ := heq
      subst ho
      simp
    · exact Option.noConfusion heq
  | ctxDone b =>
    cases b <;>
      · rw [WorkerPool.acquire] at heq
        simp only [Option.some.injEq, Prod.mk.injEq] at heq
        obtain ⟨ho, -⟩ := heq
        subst ho
        simp

/-- C8 witness: on a full pool of capacity 1, the deadline resolution yields
`ErrPoolExhausted` and only it; cancellation yields the distinct cancellation
outcome with the state unchanged. -/
theorem c8_acquire_cancel_distinct_witness :
    (WorkerPool.AcquireOutcome.exhausted = .exhausted ↔
      (WorkerPool.SelectRes.ctxDone true) = .ctxDone true) ∧
    WorkerPool.acquire 1 ⟨1, 1, 0⟩ (.ctxDone false) = some (.cancelled, ⟨1, 1, 0⟩) ∧
    WorkerPool.AcquireOutcome.cancelled ≠ WorkerPool.AcquireOutcome.exhausted := by
  have h := c8_acquire_cancel_distinct
  exact ⟨h.1 1 ⟨1, 1, 0⟩ ⟨1, 1, 0⟩ (.ctxDone true) .exhausted rfl, h.2.1 1 ⟨1, 1, 0⟩, h.2.2⟩
